import Mathlib

/-!
Shallow embedding of the Finnish language-learning tools (consonant gradation
and vowel harmony) and proofs about the specified behaviour.

Words are modelled as `List Char` (Python strings).  Python exceptions are
modelled by the `Err` type inside `Except`: the repository signals failures
with `IndexError`, `ValueError` (two distinct messages) and — on some paths —
`UnboundLocalError`; each is a distinct constructor.
-/

set_option autoImplicit false

namespace LangTools

/-- Python exceptions that can escape the analysed functions.
`invalidWordType` and `insufficientSyllables` are the two `ValueError`
messages raised in `utils.py`; `indexError` models Python `IndexError`;
`unboundLocal` models Python `UnboundLocalError`. -/
inductive Err where
  | indexError
  | invalidWordType
  | insufficientSyllables
  | unboundLocal
deriving DecidableEq

/-! ## constants.py -/

/-- `FINNISH_VOWELS = 'aäeioöuy'` -/
def FINNISH_VOWELS : List Char := "aäeioöuy".data

/-- `WORDTYPE_A_VOWELS = 'aäioöuy'` ("e" does not belong to Wordtype A) -/
def WORDTYPE_A_VOWELS : List Char := "aäioöuy".data

/-- `STRONG_TO_WEAK_GRAD`: the strong→weak gradation rule table, in source
order (a Python `dict` preserves insertion order). -/
def STRONG_TO_WEAK_GRAD : List (List Char × List Char) :=
  [ ("kk".data, "k".data),
    ("pp".data, "p".data),
    ("tt".data, "t".data),
    ("nk".data, "ng".data),
    ("nt".data, "nn".data),
    ("mp".data, "mm".data),
    ("lt".data, "ll".data),
    ("rt".data, "rr".data),
    ("k".data, "".data),
    ("p".data, "v".data),
    ("t".data, "d".data) ]

/-- Dictionary lookup in `STRONG_TO_WEAK_GRAD` (keys are distinct, so a
first-match search is exactly Python dict access; `isSome` of this is the
`in STRONG_TO_WEAK_GRAD.keys()` test). -/
def gradLookup (k : List Char) : Option (List Char) :=
  (STRONG_TO_WEAK_GRAD.find? (fun p => p.1 == k)).map Prod.snd

/-! ## utils.py -/

/-- `get_consonants_and_indices`: all characters **not** in the (lowercase)
vowel inventory, with their indices.  The membership test is case-sensitive,
so uppercase vowels land here. -/
def get_consonants_and_indices (word : List Char) : List (Nat × Char) :=
  word.enum.filter (fun p => p.2 ∉ FINNISH_VOWELS)

/-- `get_vowels_and_indices`: all characters in the (lowercase) vowel
inventory, with their indices. -/
def get_vowels_and_indices (word : List Char) : List (Nat × Char) :=
  word.enum.filter (fun p => p.2 ∈ FINNISH_VOWELS)

/-- `get_final_syllable`.  Mirrors the source control flow:
`word[-1]` on an empty string raises `IndexError`; then the Wordtype-A check
raises `ValueError` (`invalidWordType`); then `vowel_map[-2]` is attempted,
whose `IndexError` is caught: inside the handler `vowel_map[-1]` itself
raises `IndexError` when there are no vowels at all, otherwise one of the
two `ValueError`s is raised. -/
def get_final_syllable (word : List Char) : Except Err (List Char) :=
  if hw : word = [] then .error .indexError
  else if word.getLast hw ∉ WORDTYPE_A_VOWELS then .error .invalidWordType
  else
    let vowel_map := get_vowels_and_indices word
    if h2 : 2 ≤ vowel_map.length then
      .ok (word.drop ((vowel_map.get ⟨vowel_map.length - 2, by omega⟩).1 + 1))
    else if hv : vowel_map = [] then .error .indexError
    else if (vowel_map.getLast hv).2 ≠ word.getLast hw then .error .invalidWordType
    else .error .insufficientSyllables

/-- `get_preceding_syllables`.  `get_vowels_and_indices(word)[-2]` raises
`IndexError` when there are fewer than two vowels; the source's
`except KeyError` handler can never catch it (list indexing raises
`IndexError`, not `KeyError`), so the `IndexError` propagates. -/
def get_preceding_syllables (word : List Char) : Except Err (List Char) :=
  let vowel_map := get_vowels_and_indices word
  if h2 : 2 ≤ vowel_map.length then
    .ok (word.take ((vowel_map.get ⟨vowel_map.length - 2, by omega⟩).1 + 1))
  else .error .indexError

/-! ## Python case mapping (for `str.upper`, `str.lower`, `re.IGNORECASE`)

Model of Python's per-character case conversion on the alphabet this
repository works over: ASCII letters plus `ä`/`ö`. Other characters are
unchanged. -/

/-- (lowercase, uppercase) pairs: ASCII letters and the Finnish umlauts. -/
def CASE_PAIRS : List (Char × Char) :=
  [ ('a', 'A'), ('b', 'B'), ('c', 'C'), ('d', 'D'), ('e', 'E'), ('f', 'F'),
    ('g', 'G'), ('h', 'H'), ('i', 'I'), ('j', 'J'), ('k', 'K'), ('l', 'L'),
    ('m', 'M'), ('n', 'N'), ('o', 'O'), ('p', 'P'), ('q', 'Q'), ('r', 'R'),
    ('s', 'S'), ('t', 'T'), ('u', 'U'), ('v', 'V'), ('w', 'W'), ('x', 'X'),
    ('y', 'Y'), ('z', 'Z'), ('ä', 'Ä'), ('ö', 'Ö') ]

/-- Python `c.upper()` for a single character (identity off `CASE_PAIRS`). -/
def pyUpperChar (c : Char) : Char :=
  match CASE_PAIRS.find? (fun p => p.1 == c) with
  | some p => p.2
  | none => c

/-- Python `c.lower()` for a single character (identity off `CASE_PAIRS`). -/
def pyLowerChar (c : Char) : Char :=
  match CASE_PAIRS.find? (fun p => p.2 == c) with
  | some p => p.1
  | none => c

/-- Python `word.upper()`. -/
def pyUpper (word : List Char) : List Char := word.map pyUpperChar

/-- Case-insensitive "does `s` start with pattern `pat`" — the matching step
of `re` with `re.IGNORECASE` for a literal pattern. -/
def ciStartsWith (pat s : List Char) : Bool :=
  (s.take pat.length).map pyLowerChar == pat.map pyLowerChar

/-- Worker for `re_sub_ci`; recursion on a fuel counter (initially the
length of the subject string, which suffices because every step consumes at
least one character). -/
def re_sub_ci_aux (pat repl : List Char) : Nat → List Char → List Char
  | _, [] => []
  | 0, s => s
  | fuel + 1, c :: cs =>
    if pat ≠ [] ∧ ciStartsWith pat (c :: cs) then
      repl ++ re_sub_ci_aux pat repl fuel ((c :: cs).drop pat.length)
    else
      c :: re_sub_ci_aux pat repl fuel cs

/-- `re.sub(pat, repl, s, flags=re.IGNORECASE)` for a *literal, non-empty*
pattern (every pattern used by the source is a rule-table key, which contains
only consonant letters — no regex metacharacters — and is non-empty):
replaces every non-overlapping occurrence, scanning left to right. -/
def re_sub_ci (pat repl s : List Char) : List Char :=
  re_sub_ci_aux pat repl s.length s

/-! ## astevaihtelu.py -/

/-- `get_transformation`.  Mirrors the source control flow: the last two
consonant characters of the final syllable (`[-2:]`, i.e. the whole consonant
string when it is shorter than 2) are tested against the rule table first,
then the last single consonant (`[-1]`, which raises `IndexError` when there
are no consonants at all — the `except KeyError` handler cannot catch that).
When neither matches, the local `target_consonants` was never assigned and
the dictionary access raises `UnboundLocalError`, which `except KeyError`
cannot catch either; so the documented "print a diagnostic and return `''`"
branch is unreachable. -/
def get_transformation (word : List Char) :
    Except Err (List Char × List Char × List Char) :=
  match get_final_syllable word with
  | .error e => .error e
  | .ok final_syllable =>
    let final_syllable_consonants :=
      (get_consonants_and_indices final_syllable).map Prod.snd
    let last_two :=
      final_syllable_consonants.drop (final_syllable_consonants.length - 2)
    match gradLookup last_two with
    | some weak_form =>
        .ok (last_two, weak_form, re_sub_ci last_two weak_form final_syllable)
    | none =>
      if hc : final_syllable_consonants = [] then .error .indexError
      else
        let last_one := [final_syllable_consonants.getLast hc]
        match gradLookup last_one with
        | some weak_form =>
            .ok (last_one, weak_form, re_sub_ci last_one weak_form final_syllable)
        | none => .error .unboundLocal

/-- `produce_nom_plural_example`.  `get_preceding_syllables` is called
*outside* the `try`, so its exceptions propagate; every exception raised by
`get_transformation` (and the `IndexError` from indexing `''[2]` on the
unreachable empty-string return) is swallowed by the bare `except:` and the
fallback `word + 't'` is returned. -/
def produce_nom_plural_example (word : List Char) : Except Err (List Char) :=
  match get_preceding_syllables word with
  | .error e => .error e
  | .ok preceding_syllables =>
    match get_transformation word with
    | .ok (_, _, transformation) =>
        .ok (preceding_syllables ++ transformation ++ ['t'])
    | .error _ => .ok (word ++ ['t'])

/-! ## vowel_harmony.py and vokaaliharmonia.py -/

/-- The f-string `f'inconclusive: "{word}" does not contain vowels'` used by
both harmony scripts when the word has no (lowercase) vowels. -/
def inconclusiveMsg (word : List Char) : List Char :=
  "inconclusive: \"".data ++ word ++ "\" does not contain vowels".data

namespace vowel_harmony

/-- `vowel_harmony.get_vowels`: keep the characters that are members of the
lowercase vowel string (case-sensitive test), then `lower()` each (a no-op on
the kept characters, retained for fidelity). -/
def get_vowels (word : List Char) : List Char :=
  (word.filter (fun c => c ∈ FINNISH_VOWELS)).map pyLowerChar

/-- `vowel_harmony.return_vowel_group`: `aou` / `aouie` / `äöy` / `äöyie`
checked in that order; the final `else` returns `'neutral'`. -/
def return_vowel_group (word : List Char) : List Char :=
  let vowels := get_vowels word
  if vowels = [] then inconclusiveMsg word
  else if vowels.all (fun v => v ∈ "aou".data) then "front".data
  else if vowels.all (fun v => v ∈ "aouie".data) then "front + neutral".data
  else if vowels.all (fun v => v ∈ "äöy".data) then "back".data
  else if vowels.all (fun v => v ∈ "äöyie".data) then "back + neutral".data
  else "neutral".data

end vowel_harmony

namespace vokaaliharmonia

/-- `vokaaliharmonia.return_vowel_group`: vowels come from
`utils.get_vowels_and_indices` (no lowercasing); the `ie` check comes
*first*, and the final `else` returns Python `None` (modelled as `none`). -/
def return_vowel_group (word : List Char) : Option (List Char) :=
  let vowels := (get_vowels_and_indices word).map Prod.snd
  if vowels = [] then some (inconclusiveMsg word)
  else if vowels.all (fun v => v ∈ "ie".data) then some ("neutral".data)
  else if vowels.all (fun v => v ∈ "aou".data) then some ("front".data)
  else if vowels.all (fun v => v ∈ "aouie".data) then some ("front + neutral".data)
  else if vowels.all (fun v => v ∈ "äöy".data) then some ("back".data)
  else if vowels.all (fun v => v ∈ "äöyie".data) then some ("back + neutral".data)
  else none

end vokaaliharmonia

/-- Modelled from the spec: "perform a single case-insensitive substitution
of the **first** occurrence of the matched key within the final syllable" —
the substitution the specification describes, written here only to compare
with `re_sub_ci` (the substitution the source performs). -/
def sub_first_ci (pat repl : List Char) : List Char → List Char
  | [] => []
  | c :: cs =>
    if pat ≠ [] ∧ ciStartsWith pat (c :: cs) then
      repl ++ (c :: cs).drop pat.length
    else
      c :: sub_first_ci pat repl cs

/-! ## Helper lemmas -/

lemma wordtypeA_sub_finnish : ∀ c ∈ WORDTYPE_A_VOWELS, c ∈ FINNISH_VOWELS := by decide

/-- Appending a vowel appends one entry to the vowel map. -/
lemma vowel_map_concat (xs : List Char) (c : Char) (hc : c ∈ FINNISH_VOWELS) :
    get_vowels_and_indices (xs ++ [c]) =
      get_vowels_and_indices xs ++ [(xs.length, c)] := by
  unfold get_vowels_and_indices
  rw [List.enum_append, List.filter_append]
  congr 1
  simp [List.enumFrom, List.filter, hc]

/-- A word ending in a vowel has a non-empty vowel map whose last entry is
that final character. -/
lemma vowel_map_getLast (word : List Char) (hw : word ≠ [])
    (hv : word.getLast hw ∈ FINNISH_VOWELS) :
    get_vowels_and_indices word ≠ [] ∧
    ∀ h : get_vowels_and_indices word ≠ [],
      ((get_vowels_and_indices word).getLast h).2 = word.getLast hw := by
  have hdec : word.dropLast ++ [word.getLast hw] = word :=
    List.dropLast_concat_getLast hw
  have hvm := vowel_map_concat word.dropLast (word.getLast hw) hv
  rw [hdec] at hvm
  have hne : get_vowels_and_indices word ≠ [] := by
    rw [hvm]; simp
  refine ⟨hne, fun h => ?_⟩
  have h1 : (get_vowels_and_indices word).getLast? =
      some ((get_vowels_and_indices word).getLast h) :=
    List.getLast?_eq_getLast _ h
  have h2 : (get_vowels_and_indices word).getLast? =
      some (word.dropLast.length, word.getLast hw) := by
    rw [hvm]; exact List.getLast?_concat _
  rw [h1] at h2
  exact congrArg Prod.snd (Option.some.inj h2)

/-- `pyUpperChar` never produces a (lowercase) Finnish vowel. -/
lemma pyUpperChar_not_vowel (c : Char) : pyUpperChar c ∉ FINNISH_VOWELS := by
  unfold pyUpperChar
  cases hf : CASE_PAIRS.find? (fun p => p.1 == c) with
  | some p =>
    have hp : p ∈ CASE_PAIRS := List.mem_of_find?_eq_some hf
    have hall : ∀ q ∈ CASE_PAIRS, q.2 ∉ FINNISH_VOWELS := by decide
    exact hall p hp
  | none =>
    intro hc
    have hxx : ∀ d ∈ FINNISH_VOWELS,
        (CASE_PAIRS.find? (fun p => p.1 == d)).isSome := by decide
    have hs := hxx c hc
    rw [hf] at hs
    simp at hs

/-- An upper-cased word has no detected vowels at all: vowel detection only
recognizes the lowercase inventory. -/
lemma get_vowels_pyUpper (word : List Char) :
    vowel_harmony.get_vowels (pyUpper word) = [] := by
  unfold vowel_harmony.get_vowels pyUpper
  have hfil : (word.map pyUpperChar).filter (fun c => c ∈ FINNISH_VOWELS) = [] := by
    rw [List.filter_eq_nil_iff]
    intro a ha
    obtain ⟨b, _, rfl⟩ := List.mem_map.mp ha
    simpa using pyUpperChar_not_vowel b
  rw [hfil]
  rfl

/-! ## Claims -/

/-- **C1** (code bug): the claim says that for a word whose final syllable's
trailing consonants match no rule-table key, `get_transformation` returns the
`NoGradation` result (prints a diagnostic and returns `''`) rather than
raising — that is also what the function's own docstring shows for `"Suomi"`.
In the code, however, the no-match path leaves `target_consonants` unassigned
and the subsequent dictionary access raises `UnboundLocalError`, which the
`except KeyError:` handler cannot catch.  The second half of the claim holds:
`produce_nom_plural_example` still returns `word + 't'` because its bare
`except:` swallows the error. -/
theorem c1_no_match_raises_instead_of_no_gradation :
    get_transformation "Suomi".data = .error .unboundLocal
    ∧ produce_nom_plural_example "Suomi".data = .ok ("Suomit".data) :=
  ⟨rfl, rfl⟩

/-- **C2** (code bug): the claim (and the spec's "never fails" policy) says
`produce_nom_plural_example` falls back to `word + 't'` whenever gradation
analysis fails, including for words with fewer than two vowels.  But
`get_preceding_syllables` is called *outside* the `try`, and for a word with
fewer than two vowels it raises `IndexError` (its own `except KeyError:`
cannot catch the `IndexError` from `[-2]` indexing), so
`produce_nom_plural_example("ba")` raises instead of returning `"bat"`.
The fallback does work for word-type failures (`"kone"` ends in `e`). -/
theorem c2_plural_example_raises_on_few_vowels :
    produce_nom_plural_example "ba".data = .error .indexError
    ∧ produce_nom_plural_example "kone".data = .ok ("konet".data) :=
  ⟨rfl, rfl⟩

/-- **C3** (code bug): per the claim (spec §4.5 rules 6–7) a word whose
vowels all lie in {i, e} classifies as `neutral`, and a word with vowels from
both the {a,o,u} and {ä,ö,y} camps classifies as the distinct `contradictory`
result.  `vowel_harmony.return_vowel_group` instead classifies `"Sveitsi"`
(vowels e, i, i) as `'front + neutral'` — contradicting its own doctest,
which expects `'neutral'` — and classifies the mixed-camp word `"aä"` as
`'neutral'`, not a distinct sentinel.  The `vokaaliharmonia` variant does
follow the claimed policy (checking `ie` first and returning the distinct
`None` for mixed camps). -/
theorem c3_vowel_harmony_misorders_neutral_rule :
    vowel_harmony.return_vowel_group "Sveitsi".data = "front + neutral".data
    ∧ "front + neutral".data ≠ "neutral".data
    ∧ vokaaliharmonia.return_vowel_group "Sveitsi".data = some ("neutral".data)
    ∧ vowel_harmony.return_vowel_group "aä".data = "neutral".data
    ∧ vokaaliharmonia.return_vowel_group "aä".data = none :=
  ⟨rfl, by decide, rfl, rfl, rfl⟩

/-- **C4** (counterexample): the claim says the substitution replaces only
the *first* occurrence of the matched key in the final syllable.  For
`"akkkka"` the final syllable is `"kkkka"`, the matched key is `"kk"`, and
the code (`re.sub` with default `count=0`) replaces *both* non-overlapping
occurrences, giving `"kka"`; replacing only the first occurrence would give
`"kkka"`. -/
theorem c4_counterexample_sub_replaces_all :
    get_final_syllable "akkkka".data = .ok ("kkkka".data)
    ∧ get_transformation "akkkka".data = .ok ("kk".data, "k".data, "kka".data)
    ∧ sub_first_ci "kk".data "k".data "kkkka".data = "kkka".data
    ∧ "kka".data ≠ "kkka".data :=
  ⟨rfl, rfl, rfl, by decide⟩

/-- **C4** (amended): on a rule match, `get_transformation` performs a
case-insensitive substitution of **every** non-overlapping occurrence
(scanning left to right) of the matched strong key inside the final syllable
with its weak replacement from the rule table, and returns the strong key,
the weak replacement, and the resulting transformed syllable. -/
theorem c4_amended_substitutes_all_occurrences
    (word strong weak t : List Char)
    (h : get_transformation word = .ok (strong, weak, t)) :
    ∃ fs, get_final_syllable word = .ok fs ∧
      gradLookup strong = some weak ∧
      t = re_sub_ci strong weak fs := by
  unfold get_transformation at h
  cases hfs : get_final_syllable word with
  | error e => rw [hfs] at h; exact Except.noConfusion h
  | ok fs =>
    rw [hfs] at h
    refine ⟨fs, rfl, ?_⟩
    simp only at h
    split at h
    · rename_i weak_form hlook
      injection h with h'
      injection h' with h1 h2
      injection h2 with h2 h3
      subst h1 h2 h3
      exact ⟨hlook, rfl⟩
    · split at h
      · exact Except.noConfusion h
      · split at h
        · rename_i weak_form hlook
          injection h with h'
          injection h' with h1 h2
          injection h2 with h2 h3
          subst h1 h2 h3
          exact ⟨hlook, rfl⟩
        · exact Except.noConfusion h

/-- Witness for the amended C4 at `"akku"` (final syllable `"kku"`, key
`"kk"`, weak form `"k"`). -/
theorem c4_amended_witness :
    ∃ fs, get_final_syllable "akku".data = .ok fs ∧
      gradLookup ("kk".data) = some ("k".data) ∧
      "ku".data = re_sub_ci "kk".data "k".data fs :=
  c4_amended_substitutes_all_occurrences "akku".data "kk".data "k".data "ku".data rfl

/-- **C6** (counterexample): `classifyHarmony` is *not* invariant under
case: `"Oulu"` classifies as `'front'` (its uppercase `O` is not detected as
a vowel, but `u` twice is), while `"OULU"` has no detected vowels at all and
classifies as the inconclusive result. -/
theorem c6_counterexample_case_sensitivity :
    pyUpper "Oulu".data = "OULU".data
    ∧ vowel_harmony.return_vowel_group "Oulu".data = "front".data
    ∧ vowel_harmony.return_vowel_group (pyUpper "Oulu".data) =
        inconclusiveMsg ("OULU".data)
    ∧ vowel_harmony.return_vowel_group "Oulu".data ≠
        vowel_harmony.return_vowel_group (pyUpper "Oulu".data) :=
  ⟨rfl, rfl, rfl, by decide⟩

/-- **C6** (amended): vowel detection recognizes only the lowercase
inventory, so case-invariance fails in general: the upper-cased word never
has any detected vowels and always classifies as the inconclusive result.
`classifyHarmony(w) = classifyHarmony(upper(w))` does hold whenever
`upper(w) = w`. -/
theorem c6_amended_upper_always_inconclusive :
    (∀ word, vowel_harmony.get_vowels (pyUpper word) = [])
    ∧ (∀ word, vowel_harmony.return_vowel_group (pyUpper word) =
        inconclusiveMsg (pyUpper word))
    ∧ (∀ word, pyUpper word = word →
        vowel_harmony.return_vowel_group word =
          vowel_harmony.return_vowel_group (pyUpper word)) := by
  refine ⟨get_vowels_pyUpper, fun word => ?_, fun word h => by rw [h]⟩
  unfold vowel_harmony.return_vowel_group
  simp [get_vowels_pyUpper]

/-- Witness for the amended C6 at a word that upper-casing fixes. -/
theorem c6_amended_witness :
    vowel_harmony.return_vowel_group "BRR123".data =
      vowel_harmony.return_vowel_group (pyUpper "BRR123".data) :=
  c6_amended_upper_always_inconclusive.2.2 ("BRR123".data) (by decide)

/-- **C5**: for a non-empty word, `get_final_syllable` fails with
`invalidWordType` *exactly* when the word's last character is outside the
Wordtype-A vowel set (in particular for words ending in `e`): the word-type
check is evaluated before the syllable-count check, so a bad final character
yields `invalidWordType` regardless of the vowel count; and every word whose
last character *is* a Wordtype-A vowel but which has fewer than two vowels
fails with `insufficientSyllables`. -/
theorem c5_failure_taxonomy (word : List Char) (hw : word ≠ []) :
    (get_final_syllable word = .error .invalidWordType ↔
      word.getLast hw ∉ WORDTYPE_A_VOWELS)
    ∧ (word.getLast hw ∈ WORDTYPE_A_VOWELS →
        (get_vowels_and_indices word).length < 2 →
        get_final_syllable word = .error .insufficientSyllables) := by
  unfold get_final_syllable
  rw [dif_neg hw]
  by_cases hA : word.getLast hw ∈ WORDTYPE_A_VOWELS
  · rw [if_neg (not_not_intro hA)]
    have hFV := wordtypeA_sub_finnish _ hA
    obtain ⟨hne, hlast⟩ := vowel_map_getLast word hw hFV
    constructor
    · constructor
      · intro heq
        exfalso
        by_cases h2 : 2 ≤ (get_vowels_and_indices word).length
        · rw [dif_pos h2] at heq
          exact Except.noConfusion heq
        · rw [dif_neg h2, dif_neg hne,
            if_neg (not_not_intro (hlast hne))] at heq
          simp at heq
      · intro hcontra
        exact absurd hA hcontra
    · intro _ hlen
      have h2 : ¬ 2 ≤ (get_vowels_and_indices word).length := by omega
      rw [dif_neg h2, dif_neg hne, if_neg (not_not_intro (hlast hne))]
  · rw [if_pos hA]
    exact ⟨⟨fun _ => hA, fun _ => rfl⟩, fun hmem _ => absurd hmem hA⟩

/-- Witness for C5: `"kone"` ends in `e` → `invalidWordType`; `"ba"` ends in
a Wordtype-A vowel but has one vowel → `insufficientSyllables`. -/
theorem c5_witness :
    get_final_syllable "kone".data = .error .invalidWordType
    ∧ get_final_syllable "ba".data = .error .insufficientSyllables :=
  ⟨(c5_failure_taxonomy "kone".data (by decide)).1.mpr (by decide),
   (c5_failure_taxonomy "ba".data (by decide)).2 (by decide) (by decide)⟩

/-- **C7**: longest-match precedence.  The two-character trailing consonant
cluster is tested before the single trailing consonant, so *every* word
whose final syllable's consonants end in `"nt"` resolves to strong `"nt"`
and weak `"nn"` (never strong `"t"` / weak `"d"`); concretely,
`"Hollanti" ↦ ("nt", "nn", "nni")` and `"Afrikka" ↦ ("kk", "k", "ka")`. -/
theorem c7_longest_match_first :
    (∀ word fs pre, get_final_syllable word = .ok fs →
      (get_consonants_and_indices fs).map Prod.snd = pre ++ "nt".data →
      get_transformation word =
        .ok ("nt".data, "nn".data, re_sub_ci "nt".data "nn".data fs))
    ∧ get_transformation "Hollanti".data = .ok ("nt".data, "nn".data, "nni".data)
    ∧ get_transformation "Afrikka".data = .ok ("kk".data, "k".data, "ka".data) := by
  refine ⟨?_, rfl, rfl⟩
  intro word fs pre hfs hcs
  unfold get_transformation
  rw [hfs]
  have hlen : ((get_consonants_and_indices fs).map Prod.snd).length =
      pre.length + 2 := by
    rw [hcs]
    simp
  have hdrop : ((get_consonants_and_indices fs).map Prod.snd).drop
      (((get_consonants_and_indices fs).map Prod.snd).length - 2) = "nt".data := by
    rw [hlen, hcs]
    have h22 : pre.length + 2 - 2 = pre.length := by omega
    rw [h22]
    exact List.drop_left pre ("nt".data)
  simp only []
  rw [hdrop]
  rfl

/-- Witness for C7 applied at `"Hollanti"` (final syllable `"nti"`, whose
consonant string `"nt"` ends in `"nt"` with empty prefix). -/
theorem c7_witness :
    get_transformation "Hollanti".data =
      .ok ("nt".data, "nn".data, re_sub_ci "nt".data "nn".data ("nti".data)) :=
  c7_longest_match_first.1 "Hollanti".data "nti".data [] rfl rfl

/-- **C8**: for every word on which both operations succeed (at least two
vowels and a Wordtype-A final character), `get_final_syllable word` is a
suffix of `word` and `get_preceding_syllables word ++ get_final_syllable
word = word`. -/
theorem c8_round_trip (word fs ps : List Char)
    (hf : get_final_syllable word = .ok fs)
    (hp : get_preceding_syllables word = .ok ps) :
    fs <:+ word ∧ ps ++ fs = word := by
  unfold get_final_syllable at hf
  unfold get_preceding_syllables at hp
  by_cases hw : word = []
  · rw [dif_pos hw] at hf
    exact Except.noConfusion hf
  rw [dif_neg hw] at hf
  by_cases hA : word.getLast hw ∉ WORDTYPE_A_VOWELS
  · rw [if_pos hA] at hf
    exact Except.noConfusion hf
  rw [if_neg hA] at hf
  by_cases h2 : 2 ≤ (get_vowels_and_indices word).length
  · rw [dif_pos h2] at hf
    rw [dif_pos h2] at hp
    injection hf with hf
    injection hp with hp
    subst hf
    subst hp
    exact ⟨List.drop_suffix _ _, List.take_append_drop _ _⟩
  · rw [dif_neg h2] at hp
    exact Except.noConfusion hp

/-- Witness for C8 at `"talo"`: final syllable `"lo"`, preceding prefix
`"ta"`. -/
theorem c8_witness :
    "lo".data <:+ "talo".data ∧ "ta".data ++ "lo".data = "talo".data :=
  c8_round_trip "talo".data "lo".data "ta".data rfl rfl

/-- **C9** (counterexample): two vowel-less words have identical (empty)
vowel sets but classify differently, because the inconclusive diagnostic
embeds the word itself in the returned string. -/
theorem c9_counterexample_inconclusive_embeds_word :
    vowel_harmony.get_vowels "b".data = vowel_harmony.get_vowels "c".data
    ∧ vowel_harmony.return_vowel_group "b".data ≠
        vowel_harmony.return_vowel_group "c".data :=
  ⟨rfl, by decide⟩

/-- **C9** (amended): for words with at least one detected vowel,
`return_vowel_group` depends only on the *set* of distinct vowels present —
positions, repetition counts and surrounding consonants are irrelevant.
(For vowel-less words both results are the inconclusive diagnostic, but that
string embeds the word itself, so equality fails there.) -/
theorem c9_amended_depends_only_on_vowel_set (w1 w2 : List Char)
    (h12 : ∀ c ∈ vowel_harmony.get_vowels w1, c ∈ vowel_harmony.get_vowels w2)
    (h21 : ∀ c ∈ vowel_harmony.get_vowels w2, c ∈ vowel_harmony.get_vowels w1)
    (hne : vowel_harmony.get_vowels w1 ≠ []) :
    vowel_harmony.return_vowel_group w1 = vowel_harmony.return_vowel_group w2 := by
  have hne2 : vowel_harmony.get_vowels w2 ≠ [] := by
    obtain ⟨c, hc⟩ := List.exists_mem_of_ne_nil _ hne
    exact List.ne_nil_of_mem (h12 c hc)
  have hall : ∀ S : List Char,
      ((vowel_harmony.get_vowels w1).all fun v => v ∈ S) =
      ((vowel_harmony.get_vowels w2).all fun v => v ∈ S) := by
    intro S
    rw [Bool.eq_iff_iff]
    simp only [List.all_eq_true, decide_eq_true_eq]
    exact ⟨fun H c hc => H c (h21 c hc), fun H c hc => H c (h12 c hc)⟩
  unfold vowel_harmony.return_vowel_group
  simp only [if_neg hne, if_neg hne2, hall]

/-- Witness for the amended C9: `"talo"` and `"loota"` have the same vowel
set {a, o} with different counts and positions. -/
theorem c9_witness :
    vowel_harmony.return_vowel_group "talo".data =
      vowel_harmony.return_vowel_group "loota".data :=
  c9_amended_depends_only_on_vowel_set "talo".data "loota".data
    (by decide) (by decide) (by decide)

/-- **C10**: vowel detection is case-sensitive against the lowercase
inventory `'aäeioöuy'`: uppercase Finnish vowels are not vowels to any
component — they land in the consonant extraction, any word with no
lowercase vowel (e.g. an all-uppercase word) classifies as the inconclusive
result even when uppercase vowels are present, and an uppercase vowel inside
a final syllable is counted among its consonants by the gradation resolver
(`"Uka"`'s consonant map contains `U`, and `"aUka"` matches the bare-`k`
rule through the consonant string `"Uk"`). -/
theorem c10_vowel_detection_case_sensitive :
    (∀ c, c ∈ "AÄEIOÖUY".data → c ∉ FINNISH_VOWELS)
    ∧ (∀ word i c, (i, c) ∈ word.enum → c ∉ FINNISH_VOWELS →
        (i, c) ∈ get_consonants_and_indices word)
    ∧ (∀ word, (∀ c ∈ word, c ∉ FINNISH_VOWELS) →
        vowel_harmony.get_vowels word = []
        ∧ vowel_harmony.return_vowel_group word = inconclusiveMsg word)
    ∧ get_consonants_and_indices "Uka".data = [(0, 'U'), (1, 'k')]
    ∧ get_transformation "aUka".data = .ok ("k".data, "".data, "Ua".data) := by
  refine ⟨by decide, ?_, ?_, rfl, rfl⟩
  · intro word i c hmem hnv
    unfold get_consonants_and_indices
    rw [List.mem_filter]
    exact ⟨hmem, by simpa using hnv⟩
  · intro word hno
    have hv : vowel_harmony.get_vowels word = [] := by
      unfold vowel_harmony.get_vowels
      have hfil : word.filter (fun c => c ∈ FINNISH_VOWELS) = [] := by
        rw [List.filter_eq_nil_iff]
        intro a ha
        simpa using hno a ha
      rw [hfil]
      rfl
    refine ⟨hv, ?_⟩
    unfold vowel_harmony.return_vowel_group
    simp [hv]

/-- Witness for C10: `'A'` is not a detected vowel, and `"PORTTI"` (which
contains the uppercase vowels `O` and `I`) classifies as inconclusive. -/
theorem c10_witness :
    ('A' ∉ FINNISH_VOWELS)
    ∧ vowel_harmony.return_vowel_group "PORTTI".data =
        inconclusiveMsg ("PORTTI".data) :=
  ⟨c10_vowel_detection_case_sensitive.1 'A' (by decide),
   (c10_vowel_detection_case_sensitive.2.2.1 ("PORTTI".data) (by decide)).2⟩

end LangTools
